/-
Verification of the Hamiltonian-parameter fitters
(qiskit/ignis/characterization/hamiltonian/fitters.py): the cross-resonance
data reduction, the Bloch-equation model function, the derived Hamiltonian
coefficients, and the ZZ rate.

Shallow embedding conventions:
- A measurement outcome set ("counts dictionary") is a `List (String × Nat)`
  in iteration (insertion) order.
- A backend result object is, for our purposes, its mapping from experiment
  name to counts: `List (String × Counts)`.
- Python float arithmetic is idealised as exact arithmetic (`ℚ` for the data
  reduction, `ℝ` for the model function and fit parameters).
- Python exceptions become an explicit error type `CalcError`; the
  translated code produces only `zeroDivision` (ZeroDivisionError) and
  `indexError` (IndexError).
-/
import Mathlib

namespace Fitters

/-- A counts dictionary: bitstring keys with occurrence counts, in iteration
order. -/
abbrev Counts := List (String × Nat)

/-- A backend result object, viewed through `get_counts`: experiment name to
counts dictionary. -/
abbrev ResultObj := List (String × Counts)

/-- Errors the embedded computations can signal.  `zeroDivision` is Python's
`ZeroDivisionError` (raised by `expv /= sum(counts.values())` when the total
is zero) and `indexError` is Python's `IndexError` (raised by
`bits[::-1][qind]` when a bitstring is too short).  Neither carries any
experiment identification, matching the bare Python exceptions.
`emptyOutcomeSet` and `missingExperimentData` are modelled from the spec's
error taxonomy (section 7); the code as translated never produces them. -/
inductive CalcError where
  | zeroDivision : CalcError
  | indexError : CalcError
  | emptyOutcomeSet : String → CalcError
  | missingExperimentData : String → CalcError
  deriving DecidableEq, Repr

deriving instance DecidableEq for Except

/-- `result.get_counts(expname)`: look the experiment name up in one backend
result, `none` when absent (Python raises QiskitError, caught by the
caller). -/
def getCounts (result : ResultObj) (expname : String) : Option Counts :=
  (result.find? (fun p => p.1 = expname)).map Prod.snd

/-- The lookup loop of `_calc_data` (lines 173–178): `counts = {}` then, for
each backend result in order, `counts = result.get_counts(expname)` with the
not-found exception swallowed by `pass`.  There is no `break`, so each
successful lookup overwrites the previous one. -/
def lookupCounts (results : List ResultObj) (expname : String) : Counts :=
  results.foldl
    (fun counts result =>
      match getCounts result expname with
      | some c => c
      | none => counts)
    []

/-- `bits[::-1][qind]`: the `qind`-th character of the reversed bitstring,
`none` when out of bounds (Python IndexError). -/
def bitAt (bits : String) (qind : Nat) : Option Char :=
  bits.toList.reverse[qind]?

/-- The signed-sum loop of `_calc_data` (lines 180–185): starting from 0,
subtract the count when `bits[::-1][qind] == '1'`, otherwise add it; fail
with IndexError when a bitstring is too short. -/
def signedSum (counts : Counts) (qind : Nat) : Except CalcError Int :=
  match counts with
  | [] => Except.ok 0
  | (bits, count) :: rest =>
    match bitAt bits qind with
    | none => Except.error CalcError.indexError
    | some c =>
      match signedSum rest qind with
      | Except.error e => Except.error e
      | Except.ok s =>
        Except.ok (if c = '1' then s - (count : Int) else s + (count : Int))

/-- Total count: `sum(counts.values())`. -/
def totalCount (counts : Counts) : Nat :=
  (counts.map Prod.snd).sum

/-- The eigenvalue expectation of `_calc_data` (lines 180–186): the signed
sum divided by the total count; ZeroDivisionError when the total is zero. -/
def expvOfCounts (counts : Counts) (qind : Nat) : Except CalcError ℚ :=
  match signedSum counts qind with
  | Except.error e => Except.error e
  | Except.ok s =>
    if totalCount counts = 0 then Except.error CalcError.zeroDivision
    else Except.ok ((s : ℚ) / (totalCount counts : ℚ))

/-- One basis expectation of `_calc_data`: look the experiment up across the
backend results, then reduce the counts found (an empty dictionary when no
result contains the name). -/
def calcExpv (results : List ResultObj) (expname : String) (qind : Nat) :
    Except CalcError ℚ :=
  expvOfCounts (lookupCounts results expname) qind

/-- Effectful map over a list in the `Except` monad, stopping at the first
error (Python loop semantics). -/
def exceptMapList {α β : Type} (f : α → Except CalcError β) :
    List α → Except CalcError (List β)
  | [] => Except.ok []
  | a :: as =>
    match f a with
    | Except.error e => Except.error e
    | Except.ok b =>
      match exceptMapList f as with
      | Except.error e => Except.error e
      | Except.ok bs => Except.ok (b :: bs)

/-- `np.array(rows).T.ravel()` for a list of length-3 rows: row-major
traversal of the transpose, i.e. basis-major order (all first components,
then all second, then all third).  Shared by the data reduction and by the
Bloch-equation model function. -/
def basisFlatten {α : Type} [Inhabited α] (rows : List (List α)) : List α :=
  (List.range 3).flatMap (fun b => rows.map (fun row => row.getD b default))

/-- The measurement bases of `_calc_data`: `meas_basis = 'x', 'y', 'z'`. -/
def measBasis : List String := ["x", "y", "z"]

/-- The experiment name `'%s_%s_%s' % (circname, axis, serieslbl)`. -/
def expName (circname axis serieslbl : String) : String :=
  circname ++ "_" ++ axis ++ "_" ++ serieslbl

/-- One entry of the `ydata` table: the dictionary
`{'mean': None, 'std': None}` whose fields `_calc_data` may fill in. -/
structure YEntry where
  mean : Option (List ℚ)
  std : Option (List ℚ)
  deriving DecidableEq, Repr

/-- The three basis expectations of one circuit (the `temp_bloch_vec` loop
over `meas_basis`). -/
def blochRow (results : List ResultObj) (circname serieslbl : String)
    (qind : Nat) : Except CalcError (List ℚ) :=
  exceptMapList (fun axis => calcExpv results (expName circname axis serieslbl) qind)
    measBasis

/-- The `bloch_vecs` loop of `_calc_data`: one row of three basis
expectations per circuit name. -/
def blochRows (results : List ResultObj) (circnames : List String)
    (serieslbl : String) (qind : Nat) : Except CalcError (List (List ℚ)) :=
  exceptMapList (fun circname => blochRow results circname serieslbl qind) circnames

/-- The `ydata` entry for one series and one qubit:
`{'mean': bloch_vecs_flatten, 'std': None}` — only `'mean'` is ever
assigned; `'std'` keeps its initial `None`. -/
def calcDataQubit (results : List ResultObj) (circnames : List String)
    (serieslbl : String) (qind : Nat) : Except CalcError YEntry :=
  match blochRows results circnames serieslbl qind with
  | Except.error e => Except.error e
  | Except.ok rows => Except.ok ⟨some (basisFlatten rows), none⟩

/-- The per-series inner loop of `_calc_data` over
`range(len(self.measured_qubits))`. -/
def calcDataSeries (results : List ResultObj) (circnames : List String)
    (serieslbl : String) (nQubits : Nat) : Except CalcError (List YEntry) :=
  exceptMapList (fun qind => calcDataQubit results circnames serieslbl qind)
    (List.range nQubits)

/-- `_calc_data` (lines 150–190): build the reduced observable table
`ydata`, keyed by series label, one `YEntry` per measured qubit. -/
def calcData (results : List ResultObj) (circnames : List String)
    (series : List String) (nQubits : Nat) :
    Except CalcError (List (String × List YEntry)) :=
  exceptMapList
    (fun serieslbl =>
      match calcDataSeries results circnames serieslbl nQubits with
      | Except.error e => Except.error e
      | Except.ok entries => Except.ok (serieslbl, entries))
    series

/-- The rotation generator `mat_a` of `_bloch_equation_fit_fun`
(lines 338–340). -/
def crGenerator (omega_x omega_y delta : ℝ) : Matrix (Fin 3) (Fin 3) ℝ :=
  Matrix.of ![![0, delta, omega_y], ![-delta, 0, -omega_x], ![-omega_y, omega_x, 0]]

/-- The initial Bloch vector `vec_r_t0 = (0, 0, 1)ᵀ` (line 335). -/
def blochInit : Fin 3 → ℝ := ![0, 0, 1]

/-- The Bloch vector at one time: `la.expm(mat_a * t) * vec_r_t0`
(line 343). -/
noncomputable def blochVecAt (omega_x omega_y delta t : ℝ) : Fin 3 → ℝ :=
  (NormedSpace.exp ℝ (t • crGenerator omega_x omega_y delta)).mulVec blochInit

/-- `_bloch_equation_fit_fun` (lines 327–345): one fresh matrix-exponential
solve per time point, then `np.array(vec_ts).T.ravel()` — the same
basis-major flattening as the data reduction. -/
noncomputable def blochEquationFitFun (x : List ℝ) (omega_x omega_y delta : ℝ) :
    List ℝ :=
  basisFlatten
    ((x.map (fun t => blochVecAt omega_x omega_y delta t)).map
      (fun v => [v 0, v 1, v 2]))

/-- The derived CR Hamiltonian of one qubit: the six interaction-term
coefficients keyed `XI`, `YI`, `ZI`, `XZ`, `YZ`, `ZZ`.  Fit parameters are
floats in the source, idealised here as rationals. -/
structure CRHamiltonian where
  XI : ℚ
  YI : ℚ
  ZI : ℚ
  XZ : ℚ
  YZ : ℚ
  ZZ : ℚ
  deriving DecidableEq, Repr

/-- The six assignments of the `hamiltonian` property body (lines 356–361),
from the fit parameter vectors of series `'0'` and `'1'`. -/
def crCoeffs (fp0 fp1 : Fin 3 → ℚ) : CRHamiltonian where
  XI := (fp0 0 + fp1 0) / 2
  YI := (fp0 1 + fp1 1) / 2
  ZI := (fp0 2 + fp1 2) / 2
  XZ := (fp0 0 - fp1 0) / 2
  YZ := (fp0 1 - fp1 1) / 2
  ZZ := (fp0 2 - fp1 2) / 2

/-- A default fit-parameter vector, for out-of-range list access. -/
def zeroParams : Fin 3 → ℚ := fun _ => 0

/-- The loop of the `hamiltonian` property (lines 352–361): for each `qid`
in `measured_qubits` (the fixed list `full`), overwrite the table entry at
`qid` with the coefficients computed from
`params['0'][measured_qubits.index(qid)]` and
`params['1'][measured_qubits.index(qid)]`. -/
def hamiltonianPass (full : List Nat) (params0 params1 : List (Fin 3 → ℚ)) :
    List Nat → (Nat → CRHamiltonian) → (Nat → CRHamiltonian)
  | [], tbl => tbl
  | qid :: rest, tbl =>
    hamiltonianPass full params0 params1 rest
      (Function.update tbl qid
        (crCoeffs (params0.getD (full.indexOf qid) zeroParams)
          (params1.getD (full.indexOf qid) zeroParams)))

/-- The `hamiltonian` property (lines 347–363): run the pass over every
measured qubit, starting from the stored `_hamiltonian` table, and return
the resulting table. -/
def hamiltonianProp (qubits : List Nat) (params0 params1 : List (Fin 3 → ℚ))
    (tbl : Nat → CRHamiltonian) : Nat → CRHamiltonian :=
  hamiltonianPass qubits params0 params1 qubits tbl

/-- `ZZ_rate` returns a numpy scalar for a specific qubit index and a numpy
vector for the all-qubits sentinel `-1`. -/
inductive ParamResult where
  | scalar : ℚ → ParamResult
  | vector : List ℚ → ParamResult
  deriving DecidableEq, Repr

/-- Modelled from the spec: the base fitter's post-fit accessor
`_get_param(i, qind, series, err=False)` lives in the base collaborator
(section 6: "post-fit accessors for fit parameters and their uncertainties,
indexed by series label and qubit index (or 'all qubits' sentinel)"), whose
code is not under src/.  `params` is the per-qubit list of fit parameter
vectors of one series; index `-1` returns the `i`-th parameter of every
qubit, any other index the `i`-th parameter of that qubit. -/
def getParam (params : List (List ℚ)) (i : Nat) (qind : Int) : ParamResult :=
  if qind = -1 then
    ParamResult.vector (params.map (fun p => p.getD i 0))
  else
    ParamResult.scalar ((params.getD qind.toNat []).getD i 0)

/-- `ZZFitter.ZZ_rate` (lines 51–65): `np.array(freq1) - np.array(freq0)`
where `freq` is fit parameter index 1 of the respective series. -/
def ZZrate (params0 params1 : List (List ℚ)) (qind : Int) : ParamResult :=
  match getParam params1 1 qind, getParam params0 1 qind with
  | ParamResult.scalar f1, ParamResult.scalar f0 => ParamResult.scalar (f1 - f0)
  | ParamResult.vector f1, ParamResult.vector f0 =>
    ParamResult.vector (List.zipWith (fun a b => a - b) f1 f0)
  | ParamResult.scalar f1, ParamResult.vector _ => ParamResult.scalar f1
  | ParamResult.vector f1, ParamResult.scalar _ => ParamResult.vector f1

/-! ### Helper lemmas -/

theorem bitAt_isSome_iff (bits : String) (qind : Nat) :
    (bitAt bits qind).isSome ↔ qind < bits.length := by
  rw [bitAt, Option.isSome_iff_ne_none, Ne, List.getElem?_eq_none_iff,
    List.length_reverse, show bits.toList.length = bits.length from rfl]
  exact not_le

theorem signedSum_isOk (counts : Counts) (qind : Nat)
    (h : ∀ p ∈ counts, (bitAt p.1 qind).isSome) :
    ∃ s : Int, signedSum counts qind = Except.ok s ∧
      -(totalCount counts : Int) ≤ s ∧ s ≤ (totalCount counts : Int) := by
  induction counts with
  | nil => exact ⟨0, rfl, by simp [totalCount], by simp [totalCount]⟩
  | cons p rest ih =>
    obtain ⟨c, hc⟩ := Option.isSome_iff_exists.mp (h p (List.mem_cons_self p rest))
    obtain ⟨s, hs, hlb, hub⟩ := ih (fun q hq => h q (List.mem_cons_of_mem p hq))
    refine ⟨if c = '1' then s - (p.2 : Int) else s + (p.2 : Int), ?_, ?_, ?_⟩
    · simp [signedSum, hc, hs]
    · have ht : (totalCount (p :: rest) : Int) = (p.2 : Int) + (totalCount rest : Int) := by
        simp [totalCount]
      rw [ht]
      split <;> omega
    · have ht : (totalCount (p :: rest) : Int) = (p.2 : Int) + (totalCount rest : Int) := by
        simp [totalCount]
      rw [ht]
      split <;> omega

theorem signedSum_all_zero (counts : Counts) (qind : Nat)
    (h : ∀ p ∈ counts, bitAt p.1 qind = some '0') :
    signedSum counts qind = Except.ok (totalCount counts : Int) := by
  induction counts with
  | nil => simp [signedSum, totalCount]
  | cons p rest ih =>
    have hp := h p (List.mem_cons_self p rest)
    have hrest := ih (fun q hq => h q (List.mem_cons_of_mem p hq))
    simp [signedSum, hp, hrest, totalCount]
    ring

theorem signedSum_all_one (counts : Counts) (qind : Nat)
    (h : ∀ p ∈ counts, bitAt p.1 qind = some '1') :
    signedSum counts qind = Except.ok (-(totalCount counts : Int)) := by
  induction counts with
  | nil => simp [signedSum, totalCount]
  | cons p rest ih =>
    have hp := h p (List.mem_cons_self p rest)
    have hrest := ih (fun q hq => h q (List.mem_cons_of_mem p hq))
    simp [signedSum, hp, hrest, totalCount]
    ring

theorem signedSum_eq_filter_sub (counts : Counts) (qind : Nat)
    (h : ∀ p ∈ counts, bitAt p.1 qind = some '0' ∨ bitAt p.1 qind = some '1') :
    signedSum counts qind = Except.ok
      ((((counts.filter (fun p => bitAt p.1 qind = some '0')).map
          (fun p => (p.2 : Int))).sum) -
       (((counts.filter (fun p => bitAt p.1 qind = some '1')).map
          (fun p => (p.2 : Int))).sum)) := by
  induction counts with
  | nil => simp [signedSum]
  | cons p rest ih =>
    have hrest := ih (fun q hq => h q (List.mem_cons_of_mem p hq))
    rcases h p (List.mem_cons_self p rest) with hp | hp
    · have hne : ¬ (bitAt p.1 qind = some '1') := by simp [hp]
      simp [signedSum, hp, hrest, List.filter_cons, hne]
      ring
    · simp [signedSum, hp, hrest, List.filter_cons]
      ring

theorem foldl_lookup_eq (results : List ResultObj) (expname : String) (acc : Counts) :
    results.foldl
      (fun counts result =>
        match getCounts result expname with
        | some c => c
        | none => counts) acc =
      (results.filterMap (fun r => getCounts r expname)).getLastD acc := by
  induction results generalizing acc with
  | nil => rfl
  | cons r rs ih =>
    simp only [List.foldl_cons, List.filterMap_cons]
    cases h : getCounts r expname with
    | none => simp only [h]; exact ih acc
    | some c => simp only [h, List.getLastD_cons]; exact ih c

theorem lookupCounts_empty_of_none (results : List ResultObj) (expname : String)
    (h : ∀ r ∈ results, getCounts r expname = none) :
    lookupCounts results expname = [] := by
  rw [lookupCounts, foldl_lookup_eq]
  have : results.filterMap (fun r => getCounts r expname) = [] := by
    simp only [List.filterMap_eq_nil_iff]
    intro r hr
    simp [h r hr]
  simp [this]

/-! ### Claim theorems -/

/-- C2: for every counts dictionary with positive total, target index
`qind`, and bitstrings whose `qind`-th reversed character is `'0'` or
`'1'`, the CR expectation equals (counts with bit `'0'` minus counts with
bit `'1'`) divided by the total count. -/
theorem c2_cr_expectation_value (counts : Counts) (qind : Nat)
    (hbin : ∀ p ∈ counts, bitAt p.1 qind = some '0' ∨ bitAt p.1 qind = some '1')
    (hpos : 0 < totalCount counts) :
    expvOfCounts counts qind = Except.ok
      (((((counts.filter (fun p => bitAt p.1 qind = some '0')).map
            (fun p => (p.2 : Int))).sum -
          ((counts.filter (fun p => bitAt p.1 qind = some '1')).map
            (fun p => (p.2 : Int))).sum : Int) : ℚ) /
        (totalCount counts : ℚ)) := by
  have hs := signedSum_eq_filter_sub counts qind hbin
  simp [expvOfCounts, hs, Nat.pos_iff_ne_zero.mp hpos]

/-- Witness for C2 at a concrete counts dictionary. -/
theorem c2_cr_expectation_value_witness :
    expvOfCounts [("01", 2), ("10", 1)] 0 = Except.ok
      ((((([(("01" : String), (2 : Nat)), ("10", 1)] : Counts).filter
            (fun p => bitAt p.1 0 = some '0')).map
            (fun p => (p.2 : Int))).sum -
          ((([(("01" : String), (2 : Nat)), ("10", 1)] : Counts).filter
            (fun p => bitAt p.1 0 = some '1')).map
            (fun p => (p.2 : Int))).sum : Int) /
        (totalCount [("01", 2), ("10", 1)] : ℚ)) :=
  c2_cr_expectation_value [("01", 2), ("10", 1)] 0 (by decide) (by decide)

/-- C6: for every counts dictionary with indexable bitstrings and positive
total count, the computed expectation lies in `[-1, 1]`; it is `1` when
every bitstring has target bit `'0'` and `-1` when every bitstring has
target bit `'1'`. -/
theorem c6_expectation_bounds (counts : Counts) (qind : Nat)
    (hidx : ∀ p ∈ counts, (bitAt p.1 qind).isSome)
    (hpos : 0 < totalCount counts) :
    ∃ v : ℚ, expvOfCounts counts qind = Except.ok v ∧ -1 ≤ v ∧ v ≤ 1 ∧
      ((∀ p ∈ counts, bitAt p.1 qind = some '0') → v = 1) ∧
      ((∀ p ∈ counts, bitAt p.1 qind = some '1') → v = -1) := by
  obtain ⟨s, hs, hlb, hub⟩ := signedSum_isOk counts qind hidx
  have hNpos : (0 : ℚ) < (totalCount counts : ℚ) := by exact_mod_cast hpos
  have hne : (totalCount counts : ℚ) ≠ 0 := ne_of_gt hNpos
  refine ⟨(s : ℚ) / (totalCount counts : ℚ), ?_, ?_, ?_, ?_, ?_⟩
  · simp [expvOfCounts, hs, Nat.pos_iff_ne_zero.mp hpos]
  · rw [le_div_iff₀ hNpos]
    have : (-(totalCount counts : Int) : ℚ) ≤ (s : Int) := by exact_mod_cast hlb
    push_cast at this ⊢
    linarith
  · rw [div_le_one hNpos]
    exact_mod_cast hub
  · intro h0
    have hz := signedSum_all_zero counts qind h0
    rw [hs] at hz
    have : s = (totalCount counts : Int) := by
      simpa using hz
    rw [this]
    push_cast
    exact div_self hne
  · intro h1
    have hz := signedSum_all_one counts qind h1
    rw [hs] at hz
    have : s = -(totalCount counts : Int) := by
      simpa using hz
    rw [this]
    push_cast
    rw [neg_div]
    rw [div_self hne]

/-- Witness for C6 at a concrete counts dictionary. -/
theorem c6_expectation_bounds_witness :
    ∃ v : ℚ, expvOfCounts [("0", 1)] 0 = Except.ok v ∧ -1 ≤ v ∧ v ≤ 1 ∧
      ((∀ p ∈ ([("0", 1)] : Counts), bitAt p.1 0 = some '0') → v = 1) ∧
      ((∀ p ∈ ([("0", 1)] : Counts), bitAt p.1 0 = some '1') → v = -1) :=
  c6_expectation_bounds [("0", 1)] 0 (by decide) (by decide)

/-- C10: the target-bit lookup indexes position `qind` of the reversed
bitstring; when every key is longer than `qind` the lookup is in bounds
(it never returns `none` and the signed-sum loop succeeds), and a
bitstring of length at most `qind` makes the lookup fail out of bounds
(Python IndexError). -/
theorem c10_bit_indexing_safety (counts : Counts) (qind : Nat)
    (h : ∀ p ∈ counts, qind < p.1.length) :
    (∀ p ∈ counts, (bitAt p.1 qind).isSome) ∧
    (∃ s, signedSum counts qind = Except.ok s) ∧
    bitAt "0" 1 = none ∧
    signedSum [("0", 1)] 1 = Except.error CalcError.indexError := by
  have h1 : ∀ p ∈ counts, (bitAt p.1 qind).isSome :=
    fun p hp => (bitAt_isSome_iff p.1 qind).mpr (h p hp)
  obtain ⟨s, hs, -, -⟩ := signedSum_isOk counts qind h1
  exact ⟨h1, ⟨s, hs⟩, by decide, by decide⟩

/-- Witness for C10 at a concrete counts dictionary. -/
theorem c10_bit_indexing_safety_witness :
    (∀ p ∈ ([("00", 2)] : Counts), (bitAt p.1 1).isSome) ∧
    (∃ s, signedSum [("00", 2)] 1 = Except.ok s) ∧
    bitAt "0" 1 = none ∧
    signedSum [("0", 1)] 1 = Except.error CalcError.indexError :=
  c10_bit_indexing_safety [("00", 2)] 1 (by decide)

/-- C4 counterexample: a counts dictionary with total count zero makes the
reduction fail with Python's unattributed ZeroDivisionError, not with a
named EmptyOutcomeSet-style error. -/
theorem c4_counterexample :
    expvOfCounts [("0", 0)] 0 = Except.error CalcError.zeroDivision := by
  decide

/-- C4 (amended): for every counts dictionary with indexable bitstrings and
total count zero, the CR data reduction fails with the unattributed
division-by-zero error; no error naming the experiment is produced. -/
theorem c4_zero_total_division (counts : Counts) (qind : Nat)
    (hidx : ∀ p ∈ counts, (bitAt p.1 qind).isSome)
    (h0 : totalCount counts = 0) :
    expvOfCounts counts qind = Except.error CalcError.zeroDivision := by
  obtain ⟨s, hs, -, -⟩ := signedSum_isOk counts qind hidx
  simp [expvOfCounts, hs, h0]

/-- Witness for the amended C4 at a concrete counts dictionary. -/
theorem c4_zero_total_division_witness :
    expvOfCounts [("1", 0), ("0", 0)] 0 = Except.error CalcError.zeroDivision :=
  c4_zero_total_division [("1", 0), ("0", 0)] 0 (by decide) (by decide)

/-- C3 counterexample: two backend results both contain experiment `"e"`
with different counts; the lookup loop keeps the counts from the second
(last) result, not from the first, so first-match-wins is false. -/
theorem c3_counterexample :
    getCounts [("e", [("0", 1)])] "e" = some [("0", 1)] ∧
    getCounts [("e", [("0", 2)])] "e" = some [("0", 2)] ∧
    lookupCounts [[("e", [("0", 1)])], [("e", [("0", 2)])]] "e" = [("0", 2)] ∧
    lookupCounts [[("e", [("0", 1)])], [("e", [("0", 2)])]] "e" ≠ [("0", 1)] := by
  refine ⟨by decide, by decide, by decide, by decide⟩

/-- C3 (amended): when the named experiment occurs in several backend
results, the counts dictionary actually used is the one from the LAST
backend result that contains it — each later successful lookup overwrites
the earlier one. -/
theorem c3_last_match_wins (rs1 rs2 : List ResultObj) (r : ResultObj)
    (expname : String) (c : Counts)
    (hr : getCounts r expname = some c)
    (h2 : ∀ r2 ∈ rs2, getCounts r2 expname = none) :
    lookupCounts (rs1 ++ r :: rs2) expname = c := by
  rw [lookupCounts, foldl_lookup_eq]
  have h2' : rs2.filterMap (fun x => getCounts x expname) = [] := by
    simp only [List.filterMap_eq_nil_iff]
    intro x hx
    simp [h2 x hx]
  rw [List.filterMap_append, List.filterMap_cons, hr, h2']
  exact List.getLastD_concat _ _ _

/-- Witness for the amended C3 at concrete backend results. -/
theorem c3_last_match_wins_witness :
    lookupCounts ([[("e", [("0", 7)])]] ++ [("e", [("1", 4)])] :: [[("f", [("0", 9)])]])
      "e" = [("1", 4)] :=
  c3_last_match_wins [[("e", [("0", 7)])]] [[("f", [("0", 9)])]] [("e", [("1", 4)])]
    "e" [("1", 4)] (by decide) (by decide)

/-- C8 counterexample: the experiment name is found in no backend result;
the lookup exceptions are swallowed and the reduction fails with the
unattributed ZeroDivisionError on the empty dictionary, not with a
MissingExperimentData-style error naming the combination. -/
theorem c8_counterexample :
    getCounts [("other", [("0", 1)])] "cr_ham_tomo_sched_0_x_0" = none ∧
    calcExpv [[("other", [("0", 1)])]] "cr_ham_tomo_sched_0_x_0" 0 =
      Except.error CalcError.zeroDivision := by
  refine ⟨by decide, by decide⟩

/-- C8 (amended): when a named experiment is found in none of the supplied
backend results, the per-result lookup failures are locally swallowed, the
counts dictionary stays empty, and the reduction fails with the
unattributed division-by-zero error. -/
theorem c8_missing_experiment_division (results : List ResultObj)
    (expname : String) (qind : Nat)
    (h : ∀ r ∈ results, getCounts r expname = none) :
    lookupCounts results expname = [] ∧
    calcExpv results expname qind = Except.error CalcError.zeroDivision := by
  have hl := lookupCounts_empty_of_none results expname h
  refine ⟨hl, ?_⟩
  rw [calcExpv, hl]
  rfl

/-- Witness for the amended C8 at concrete backend results. -/
theorem c8_missing_experiment_division_witness :
    lookupCounts [[("a", [("0", 3)])], [("b", [("1", 5)])]] "e" = [] ∧
    calcExpv [[("a", [("0", 3)])], [("b", [("1", 5)])]] "e" 2 =
      Except.error CalcError.zeroDivision :=
  c8_missing_experiment_division [[("a", [("0", 3)])], [("b", [("1", 5)])]] "e" 2
    (by decide)

theorem hamiltonianPass_not_mem (full : List Nat) (params0 params1 : List (Fin 3 → ℚ))
    (l : List Nat) (tbl : Nat → CRHamiltonian) (q : Nat) (h : q ∉ l) :
    hamiltonianPass full params0 params1 l tbl q = tbl q := by
  induction l generalizing tbl with
  | nil => rfl
  | cons q' rest ih =>
    have hne : q ≠ q' := fun he => h (he ▸ List.mem_cons_self q' rest)
    have hrest : q ∉ rest := fun hm => h (List.mem_cons_of_mem q' hm)
    rw [hamiltonianPass, ih _ hrest, Function.update_noteq hne]

theorem hamiltonianPass_mem (full : List Nat) (params0 params1 : List (Fin 3 → ℚ))
    (l : List Nat) (tbl : Nat → CRHamiltonian) (q : Nat) (h : q ∈ l)
    (hnd : l.Nodup) :
    hamiltonianPass full params0 params1 l tbl q =
      crCoeffs (params0.getD (full.indexOf q) zeroParams)
        (params1.getD (full.indexOf q) zeroParams) := by
  induction l generalizing tbl with
  | nil => exact absurd h (List.not_mem_nil q)
  | cons q' rest ih =>
    obtain ⟨hq', hndrest⟩ := List.nodup_cons.mp hnd
    rcases List.mem_cons.mp h with he | hm
    · subst he
      rw [hamiltonianPass, hamiltonianPass_not_mem full params0 params1 rest _ q hq',
        Function.update_same]
    · rw [hamiltonianPass]
      exact ih _ hm hndrest

/-- C1: for every measured qubit with fit parameter vectors for series `'0'`
and `'1'`, accessing the derived Hamiltonian yields exactly
`XI = (ωx⁰+ωx¹)/2`, `YI = (ωy⁰+ωy¹)/2`, `ZI = (Δ⁰+Δ¹)/2`,
`XZ = (ωx⁰−ωx¹)/2`, `YZ = (ωy⁰−ωy¹)/2`, `ZZ = (Δ⁰−Δ¹)/2`, and the result
for that qubit does not depend on the stored table it started from (a pure
function of the two fit parameter sets). -/
theorem c1_hamiltonian_coefficients (qubits : List Nat)
    (params0 params1 : List (Fin 3 → ℚ)) (tbl : Nat → CRHamiltonian)
    (qid : Nat) (hmem : qid ∈ qubits) (hnd : qubits.Nodup) :
    (hamiltonianProp qubits params0 params1 tbl qid).XI =
      ((params0.getD (qubits.indexOf qid) zeroParams) 0 +
        (params1.getD (qubits.indexOf qid) zeroParams) 0) / 2 ∧
    (hamiltonianProp qubits params0 params1 tbl qid).YI =
      ((params0.getD (qubits.indexOf qid) zeroParams) 1 +
        (params1.getD (qubits.indexOf qid) zeroParams) 1) / 2 ∧
    (hamiltonianProp qubits params0 params1 tbl qid).ZI =
      ((params0.getD (qubits.indexOf qid) zeroParams) 2 +
        (params1.getD (qubits.indexOf qid) zeroParams) 2) / 2 ∧
    (hamiltonianProp qubits params0 params1 tbl qid).XZ =
      ((params0.getD (qubits.indexOf qid) zeroParams) 0 -
        (params1.getD (qubits.indexOf qid) zeroParams) 0) / 2 ∧
    (hamiltonianProp qubits params0 params1 tbl qid).YZ =
      ((params0.getD (qubits.indexOf qid) zeroParams) 1 -
        (params1.getD (qubits.indexOf qid) zeroParams) 1) / 2 ∧
    (hamiltonianProp qubits params0 params1 tbl qid).ZZ =
      ((params0.getD (qubits.indexOf qid) zeroParams) 2 -
        (params1.getD (qubits.indexOf qid) zeroParams) 2) / 2 ∧
    (∀ tbl' : Nat → CRHamiltonian,
      hamiltonianProp qubits params0 params1 tbl' qid =
        hamiltonianProp qubits params0 params1 tbl qid) := by
  have key : ∀ t : Nat → CRHamiltonian,
      hamiltonianProp qubits params0 params1 t qid =
        crCoeffs (params0.getD (qubits.indexOf qid) zeroParams)
          (params1.getD (qubits.indexOf qid) zeroParams) :=
    fun t => hamiltonianPass_mem qubits params0 params1 qubits t qid hmem hnd
  rw [key tbl]
  refine ⟨rfl, rfl, rfl, rfl, rfl, rfl, fun tbl' => ?_⟩
  rw [key tbl']

/-- Witness for C1 at a concrete qubit list and parameter sets. -/
theorem c1_hamiltonian_coefficients_witness :
    (hamiltonianProp [5] [fun _ => 3] [fun _ => 1]
        (fun _ => ⟨0, 0, 0, 0, 0, 0⟩) 5).XI =
      ((([fun _ => 3] : List (Fin 3 → ℚ)).getD (([5] : List Nat).indexOf 5) zeroParams) 0 +
        (([fun _ => 1] : List (Fin 3 → ℚ)).getD (([5] : List Nat).indexOf 5) zeroParams) 0) / 2 ∧
    (hamiltonianProp [5] [fun _ => 3] [fun _ => 1]
        (fun _ => ⟨0, 0, 0, 0, 0, 0⟩) 5).YI =
      ((([fun _ => 3] : List (Fin 3 → ℚ)).getD (([5] : List Nat).indexOf 5) zeroParams) 1 +
        (([fun _ => 1] : List (Fin 3 → ℚ)).getD (([5] : List Nat).indexOf 5) zeroParams) 1) / 2 ∧
    (hamiltonianProp [5] [fun _ => 3] [fun _ => 1]
        (fun _ => ⟨0, 0, 0, 0, 0, 0⟩) 5).ZI =
      ((([fun _ => 3] : List (Fin 3 → ℚ)).getD (([5] : List Nat).indexOf 5) zeroParams) 2 +
        (([fun _ => 1] : List (Fin 3 → ℚ)).getD (([5] : List Nat).indexOf 5) zeroParams) 2) / 2 ∧
    (hamiltonianProp [5] [fun _ => 3] [fun _ => 1]
        (fun _ => ⟨0, 0, 0, 0, 0, 0⟩) 5).XZ =
      ((([fun _ => 3] : List (Fin 3 → ℚ)).getD (([5] : List Nat).indexOf 5) zeroParams) 0 -
        (([fun _ => 1] : List (Fin 3 → ℚ)).getD (([5] : List Nat).indexOf 5) zeroParams) 0) / 2 ∧
    (hamiltonianProp [5] [fun _ => 3] [fun _ => 1]
        (fun _ => ⟨0, 0, 0, 0, 0, 0⟩) 5).YZ =
      ((([fun _ => 3] : List (Fin 3 → ℚ)).getD (([5] : List Nat).indexOf 5) zeroParams) 1 -
        (([fun _ => 1] : List (Fin 3 → ℚ)).getD (([5] : List Nat).indexOf 5) zeroParams) 1) / 2 ∧
    (hamiltonianProp [5] [fun _ => 3] [fun _ => 1]
        (fun _ => ⟨0, 0, 0, 0, 0, 0⟩) 5).ZZ =
      ((([fun _ => 3] : List (Fin 3 → ℚ)).getD (([5] : List Nat).indexOf 5) zeroParams) 2 -
        (([fun _ => 1] : List (Fin 3 → ℚ)).getD (([5] : List Nat).indexOf 5) zeroParams) 2) / 2 ∧
    (∀ tbl' : Nat → CRHamiltonian,
      hamiltonianProp [5] [fun _ => 3] [fun _ => 1] tbl' 5 =
        hamiltonianProp [5] [fun _ => 3] [fun _ => 1]
          (fun _ => ⟨0, 0, 0, 0, 0, 0⟩) 5) :=
  c1_hamiltonian_coefficients [5] [fun _ => 3] [fun _ => 1]
    (fun _ => ⟨0, 0, 0, 0, 0, 0⟩) 5 (by decide) (by decide)

theorem getD_map_param (params : List (List ℚ)) (j : Nat) :
    j < params.length →
    (params.map (fun p => p.getD 1 0)).getD j 0 = (params.getD j []).getD 1 0 := by
  induction params generalizing j with
  | nil => intro h; exact absurd h (by simp)
  | cons p rest ih =>
    intro h
    cases j with
    | zero => rfl
    | succ k =>
      simp only [List.map_cons, List.getD_cons_succ]
      exact ih k (by simpa using Nat.lt_of_succ_lt_succ h)

theorem getD_zipWith_sub (a b : List ℚ) (j : Nat) :
    j < a.length → j < b.length →
    (List.zipWith (fun x y => x - y) a b).getD j 0 = a.getD j 0 - b.getD j 0 := by
  induction a generalizing b j with
  | nil => intro h _; exact absurd h (by simp)
  | cons x xs ih =>
    intro ha hb
    cases b with
    | nil => exact absurd hb (by simp)
    | cons y ys =>
      cases j with
      | zero => rfl
      | succ k =>
        simp only [List.zipWith_cons_cons, List.getD_cons_succ]
        exact ih ys k (Nat.lt_of_succ_lt_succ ha) (Nat.lt_of_succ_lt_succ hb)

/-- C7: `ZZ_rate` returns fitted frequency (parameter index 1) of series
`'1'` minus that of series `'0'`: a scalar difference for a non-negative
qubit index, and for `qind = -1` a vector with one per-qubit difference for
each qubit of the qubit list. -/
theorem c7_zz_rate (params0 params1 : List (List ℚ)) (qind : Int)
    (hlen : params1.length = params0.length) :
    (0 ≤ qind → ZZrate params0 params1 qind =
      ParamResult.scalar ((params1.getD qind.toNat []).getD 1 0 -
        (params0.getD qind.toNat []).getD 1 0)) ∧
    (qind = -1 → ∃ v : List ℚ, ZZrate params0 params1 qind = ParamResult.vector v ∧
      v.length = params0.length ∧
      ∀ j : Nat, j < params0.length →
        v.getD j 0 = (params1.getD j []).getD 1 0 - (params0.getD j []).getD 1 0) := by
  constructor
  · intro hq
    have hne : ¬ (qind = -1) := by omega
    simp [ZZrate, getParam, hne]
  · intro hq
    subst hq
    refine ⟨List.zipWith (fun x y => x - y) (params1.map (fun p => p.getD 1 0))
      (params0.map (fun p => p.getD 1 0)), ?_, ?_, ?_⟩
    · simp [ZZrate, getParam]
    · simp [hlen]
    · intro j hj
      rw [getD_zipWith_sub _ _ j (by simpa [hlen]) (by simpa),
        getD_map_param _ j (by simpa [hlen]), getD_map_param _ j (by simpa)]

/-- Witness for C7 at concrete parameter lists. -/
theorem c7_zz_rate_witness :
    (0 ≤ (-1 : Int) → ZZrate [[4, 10, 6]] [[5, 12, 7]] (-1) =
      ParamResult.scalar ((([[5, 12, 7]] : List (List ℚ)).getD (-1 : Int).toNat []).getD 1 0 -
        (([[4, 10, 6]] : List (List ℚ)).getD (-1 : Int).toNat []).getD 1 0)) ∧
    ((-1 : Int) = -1 → ∃ v : List ℚ,
      ZZrate [[4, 10, 6]] [[5, 12, 7]] (-1) = ParamResult.vector v ∧
      v.length = ([[4, 10, 6]] : List (List ℚ)).length ∧
      ∀ j : Nat, j < ([[4, 10, 6]] : List (List ℚ)).length →
        v.getD j 0 = (([[5, 12, 7]] : List (List ℚ)).getD j []).getD 1 0 -
          (([[4, 10, 6]] : List (List ℚ)).getD j []).getD 1 0) :=
  c7_zz_rate [[4, 10, 6]] [[5, 12, 7]] (-1) (by decide)

theorem exceptMapList_ok_length {α β : Type} (f : α → Except CalcError β)
    (l : List α) (out : List β) (h : exceptMapList f l = Except.ok out) :
    out.length = l.length := by
  induction l generalizing out with
  | nil =>
    simp only [exceptMapList] at h
    cases h
    rfl
  | cons a as ih =>
    simp only [exceptMapList] at h
    cases hfa : f a with
    | error e => rw [hfa] at h; cases h
    | ok b =>
      rw [hfa] at h
      cases hrest : exceptMapList f as with
      | error e => rw [hrest] at h; cases h
      | ok bs =>
        rw [hrest] at h
        cases h
        simp [ih bs hrest]

theorem exceptMapList_ok_mem {α β : Type} (f : α → Except CalcError β)
    (l : List α) (out : List β) (h : exceptMapList f l = Except.ok out) :
    ∀ b ∈ out, ∃ a ∈ l, f a = Except.ok b := by
  induction l generalizing out with
  | nil =>
    simp only [exceptMapList] at h
    cases h
    intro b hb
    exact absurd hb (List.not_mem_nil b)
  | cons a as ih =>
    simp only [exceptMapList] at h
    cases hfa : f a with
    | error e => rw [hfa] at h; cases h
    | ok b0 =>
      rw [hfa] at h
      cases hrest : exceptMapList f as with
      | error e => rw [hrest] at h; cases h
      | ok bs =>
        rw [hrest] at h
        cases h
        intro b hb
        rcases List.mem_cons.mp hb with he | hm
        · exact ⟨a, List.mem_cons_self a as, he ▸ hfa⟩
        · obtain ⟨a', ha', hfa'⟩ := ih bs hrest b hm
          exact ⟨a', List.mem_cons_of_mem a ha', hfa'⟩

theorem basisFlatten_eq {α : Type} [Inhabited α] (rows : List (List α)) :
    basisFlatten rows =
      rows.map (fun r => r.getD 0 default) ++
        (rows.map (fun r => r.getD 1 default) ++
          (rows.map (fun r => r.getD 2 default) ++ [])) := by
  rfl

theorem basisFlatten_length {α : Type} [Inhabited α] (rows : List (List α)) :
    (basisFlatten rows).length = 3 * rows.length := by
  rw [basisFlatten_eq]
  simp
  ring

/-- A concrete set of backend results: one result object holding the three
basis experiments of circuit `c0`, series `'0'`, each with a single
all-zero outcome. -/
def sampleResults : List ResultObj :=
  [[("c0_x_0", [("0", 1)]), ("c0_y_0", [("0", 1)]), ("c0_z_0", [("0", 1)])]]

theorem expvOfCounts_single_zero : expvOfCounts [("0", 1)] 0 = Except.ok 1 := by
  have hs : signedSum [("0", 1)] 0 = Except.ok 1 := by decide
  simp only [expvOfCounts, hs, totalCount]
  norm_num

theorem calcData_sample_eval :
    calcData sampleResults ["c0"] ["0"] 1 =
      Except.ok [("0", [⟨some [1, 1, 1], none⟩])] := by
  have hx : calcExpv sampleResults (expName "c0" "x" "0") 0 = Except.ok 1 := by
    rw [calcExpv,
      show lookupCounts sampleResults (expName "c0" "x" "0") = [("0", 1)] from by decide]
    exact expvOfCounts_single_zero
  have hy : calcExpv sampleResults (expName "c0" "y" "0") 0 = Except.ok 1 := by
    rw [calcExpv,
      show lookupCounts sampleResults (expName "c0" "y" "0") = [("0", 1)] from by decide]
    exact expvOfCounts_single_zero
  have hz : calcExpv sampleResults (expName "c0" "z" "0") 0 = Except.ok 1 := by
    rw [calcExpv,
      show lookupCounts sampleResults (expName "c0" "z" "0") = [("0", 1)] from by decide]
    exact expvOfCounts_single_zero
  have hrow : blochRow sampleResults "c0" "0" 0 = Except.ok [1, 1, 1] := by
    simp only [blochRow, measBasis, exceptMapList, hx, hy, hz]
  have hrows : blochRows sampleResults ["c0"] "0" 0 = Except.ok [[1, 1, 1]] := by
    simp only [blochRows, exceptMapList, hrow]
  have hq : calcDataQubit sampleResults ["c0"] "0" 0 =
      Except.ok ⟨some [1, 1, 1], none⟩ := by
    simp only [calcDataQubit, hrows]
    rfl
  have hser : calcDataSeries sampleResults ["c0"] "0" 1 =
      Except.ok [⟨some [1, 1, 1], none⟩] := by
    rw [calcDataSeries, show List.range 1 = [0] from rfl]
    simp only [exceptMapList, hq]
  simp only [calcData, exceptMapList, hser]

/-- C9 counterexample: a complete data-reduction pass on concrete backend
results.  Every entry's `std` field is `none` — `_calc_data` only ever
assigns `'mean'` — so the table does not hold standard-error values
aligned with the time series as the claim states. -/
theorem c9_counterexample :
    calcData sampleResults ["c0"] ["0"] 1 =
      Except.ok [("0", [⟨some [1, 1, 1], none⟩])] :=
  calcData_sample_eval

/-- C9 (amended): after a successful data-reduction pass, the table holds one
entry per series, each with one `YEntry` per measured qubit, whose mean
values have length `3 · T` (aligned with the `T` time points) and whose
`std` field is left unset (`none`); the table is the pure result of the
pass. -/
theorem c9_reduced_table (results : List ResultObj) (circnames : List String)
    (series : List String) (nQubits : Nat)
    (ydata : List (String × List YEntry))
    (h : calcData results circnames series nQubits = Except.ok ydata) :
    ydata.length = series.length ∧
    ∀ e ∈ ydata, e.2.length = nQubits ∧
      ∀ y ∈ e.2, (∃ l, y.mean = some l ∧ l.length = 3 * circnames.length) ∧
        y.std = none := by
  refine ⟨exceptMapList_ok_length _ _ _ h, ?_⟩
  intro e he
  obtain ⟨s, hs, hse⟩ := exceptMapList_ok_mem _ _ _ h e he
  cases hcs : calcDataSeries results circnames s nQubits with
  | error e' => rw [hcs] at hse; cases hse
  | ok entries =>
    rw [hcs] at hse
    cases hse
    constructor
    · rw [exceptMapList_ok_length _ _ _ hcs, List.length_range]
    · intro y hy
      obtain ⟨q, hq, hqy⟩ := exceptMapList_ok_mem _ _ _ hcs y hy
      rw [calcDataQubit] at hqy
      cases hbr : blochRows results circnames s q with
      | error e'' => rw [hbr] at hqy; cases hqy
      | ok rows =>
        rw [hbr] at hqy
        cases hqy
        refine ⟨⟨basisFlatten rows, rfl, ?_⟩, rfl⟩
        rw [basisFlatten_length, exceptMapList_ok_length _ _ _ hbr]

/-- Witness for the amended C9 at a concrete successful pass. -/
theorem c9_reduced_table_witness :
    ([("0", [(⟨some [1, 1, 1], none⟩ : YEntry)])] :
        List (String × List YEntry)).length = (["0"] : List String).length ∧
    ∀ e ∈ ([("0", [(⟨some [1, 1, 1], none⟩ : YEntry)])] :
        List (String × List YEntry)), e.2.length = 1 ∧
      ∀ y ∈ e.2, (∃ l, y.mean = some l ∧ l.length = 3 * (["c0"] : List String).length) ∧
        y.std = none :=
  c9_reduced_table sampleResults
    ["c0"] ["0"] 1 [("0", [⟨some [1, 1, 1], none⟩])] calcData_sample_eval

theorem basisFlatten_getElem {α : Type} [Inhabited α] (rows : List (List α))
    (b i : Nat) (hb : b < 3) (hi : i < rows.length) :
    (basisFlatten rows)[b * rows.length + i]? =
      some ((rows.getD i []).getD b default) := by
  have hget : rows[i]?.getD [] = rows.getD i [] := by
    rw [List.getD_eq_getElem?_getD]
  have hsome : rows[i]? = some rows[i] := List.getElem?_eq_getElem hi
  have hgd : rows.getD i [] = rows[i] := by rw [← hget, hsome]; rfl
  rw [basisFlatten_eq]
  interval_cases b
  · rw [Nat.zero_mul, Nat.zero_add,
      List.getElem?_append_left (by simpa using hi), List.getElem?_map, hsome, hgd]
    rfl
  · rw [Nat.one_mul,
      List.getElem?_append_right (by simp),
      show rows.length + i - (rows.map (fun r => r.getD 0 default)).length = i by
        simp,
      List.getElem?_append_left (by simpa using hi), List.getElem?_map, hsome, hgd]
    rfl
  · rw [List.getElem?_append_right (by simp; omega),
      show 2 * rows.length + i - (rows.map (fun r => r.getD 0 default)).length =
        rows.length + i by simp; omega,
      List.getElem?_append_right (by simp),
      show rows.length + i - (rows.map (fun r => r.getD 1 default)).length = i by
        simp,
      List.getElem?_append_left (by simpa using hi), List.getElem?_map, hsome, hgd]
    rfl

/-- C5: the model function builds the antisymmetric generator
`A = [[0, Δ, ωy], [-Δ, 0, -ωx], [-ωy, ωx, 0]]`, the predicted value at
flat index `b·T + i` is component `b` of `exp(A·xᵢ)` applied to the fixed
initial vector `(0, 0, 1)ᵀ` — one independent matrix-exponential solve per
time point — and the flattening is basis-major, the same `basisFlatten`
indexing law the data reduction uses. -/
theorem c5_bloch_model (x : List ℝ) (omega_x omega_y delta : ℝ) (b : Fin 3)
    (i : Nat) (hi : i < x.length) :
    crGenerator omega_x omega_y delta =
      Matrix.of ![![0, delta, omega_y], ![-delta, 0, -omega_x],
        ![-omega_y, omega_x, 0]] ∧
    (blochEquationFitFun x omega_x omega_y delta).length = 3 * x.length ∧
    (blochEquationFitFun x omega_x omega_y delta)[b.val * x.length + i]? =
      some ((NormedSpace.exp ℝ ((x.getD i 0) •
        crGenerator omega_x omega_y delta)).mulVec blochInit b) ∧
    (∀ rows : List (List ℚ), ∀ j, j < rows.length →
      (basisFlatten rows)[b.val * rows.length + j]? =
        some ((rows.getD j []).getD b.val default)) := by
  refine ⟨rfl, ?_, ?_, fun rows j hj => basisFlatten_getElem rows b.val j b.isLt hj⟩
  · rw [blochEquationFitFun, basisFlatten_length]
    simp
  · rw [blochEquationFitFun]
    have hlen : ((x.map (fun t => blochVecAt omega_x omega_y delta t)).map
        (fun v => [v 0, v 1, v 2])).length = x.length := by simp
    have key := basisFlatten_getElem
      ((x.map (fun t => blochVecAt omega_x omega_y delta t)).map
        (fun v => [v 0, v 1, v 2])) b.val i b.isLt (by simpa using hi)
    rw [hlen] at key
    rw [key]
    have hxe : x.getD i 0 = x[i] := by
      rw [List.getD_eq_getElem?_getD, List.getElem?_eq_getElem hi]
      rfl
    have hrow : ((x.map (fun t => blochVecAt omega_x omega_y delta t)).map
        (fun v => [v 0, v 1, v 2])).getD i [] =
        [blochVecAt omega_x omega_y delta x[i] 0,
         blochVecAt omega_x omega_y delta x[i] 1,
         blochVecAt omega_x omega_y delta x[i] 2] := by
      rw [List.getD_eq_getElem?_getD, List.getElem?_map, List.getElem?_map,
        List.getElem?_eq_getElem hi]
      rfl
    rw [hrow, hxe]
    fin_cases b <;> rfl

/-- Witness for C5 at a concrete time list, parameters, basis and index. -/
theorem c5_bloch_model_witness :
    crGenerator 1 2 3 =
      Matrix.of ![![0, 3, 2], ![-3, 0, -1], ![-2, 1, 0]] ∧
    (blochEquationFitFun [0] 1 2 3).length = 3 * ([0] : List ℝ).length ∧
    (blochEquationFitFun [0] 1 2 3)[(0 : Fin 3).val * ([0] : List ℝ).length + 0]? =
      some ((NormedSpace.exp ℝ ((([0] : List ℝ).getD 0 0) •
        crGenerator 1 2 3)).mulVec blochInit (0 : Fin 3)) ∧
    (∀ rows : List (List ℚ), ∀ j, j < rows.length →
      (basisFlatten rows)[(0 : Fin 3).val * rows.length + j]? =
        some ((rows.getD j []).getD (0 : Fin 3).val default)) :=
  c5_bloch_model [0] 1 2 3 0 0 (by simp)

end Fitters
